import Mathlib

/-!
Shallow embedding of the skillseek-advisor browser client (React/TypeScript)
for verification of its natural-language specification.

Source files embedded here:
* `src/services/api.ts` — the API client (`fetchWithErrorHandling`,
  `generateLearningRoadmap`).
* the survey flow component (`Survey`): answer accumulation,
  `handleInitialComplete`, `handleSurveyComplete`, `canProceed`,
  the "next" button's `disabled` expression.
* the learning view (`Learning.fetchLearningRoadmaps`): roadmap cache
  freshness and regeneration, plus the display-text normalizer
  (`formatRoadmapText`, `cleanMarkdownText`, `parseStructuredLearningData`).
* the mentors view (`Mentors.fetchMentors` and its filter effect).

JavaScript objects keyed by strings are embedded as association lists with
first-occurrence lookup and in-place overwrite (`Obj`, `objGet`, `objSet`);
JS truthiness of an optional string (`undefined`/`""` falsy) is `truthyOpt`;
`localStorage` is a total map `String → Option String`.
-/

namespace SkillSeek

/-! ## JavaScript value primitives -/

/-- JS truthiness of `answers[id]`-style lookups: `undefined` (here `none`)
and the empty string are falsy, every other string is truthy. -/
def truthyOpt : Option String → Bool
  | some v => v ≠ ""
  | none => false

/-- A JS object with string keys and string values, as an association list in
insertion order.  Real JS objects have unique keys; theorems carry a `Nodup`
hypothesis on the key list where it matters. -/
abbrev Obj := List (String × String)

/-- `o[k]`: first-occurrence lookup. -/
def objGet : Obj → String → Option String
  | [], _ => none
  | (k', v) :: rest, k => if k' = k then some v else objGet rest k

/-- `o[k] = v`: overwrite in place if the key is present (JS objects keep the
original insertion position on update), otherwise append. -/
def objSet : Obj → String → String → Obj
  | [], k, v => [(k, v)]
  | (k', v') :: rest, k, v =>
    if k' = k then (k', v) :: rest else (k', v') :: objSet rest k v

/-- Key list of an object. -/
def objKeys (o : Obj) : List String := o.map Prod.fst

/-- JS object spread `\x7b...a, ...b\x7d`: entries of `b` written over `a`. -/
def objMerge (a b : Obj) : Obj := b.foldl (fun acc kv => objSet acc kv.1 kv.2) a

/-! ## API client (`src/services/api.ts`) -/

/-- The result shape of every API-client operation:
`ApiResponse<T> = \x7b data: T; error?: string \x7d`.  `data = none` embeds the
JS `null`; an absent `error` field and an explicit `error: null` are both
`none`. -/
structure ApiResponse (T : Type) where
  data : Option T
  error : Option String
  deriving Repr, DecidableEq

/-- What the environment hands back for one `fetch` call:
either the promise rejects (network/transport failure), or an HTTP response
arrives with a `status` and a body whose JSON parse either succeeds with a
value of `J` or fails with a message. -/
inductive FetchOutcome (J : Type) where
  | netFailure (msg : String)
  | response (status : Nat) (body : Except String J)

/-- `response.ok`: status in the inclusive range 200–299. -/
def statusOk (status : Nat) : Bool := 200 ≤ status && status ≤ 299

/-- `ApiService.fetchWithErrorHandling`: try the fetch; a non-ok status
throws `HTTP error! status: N` before the body is read; the JSON parse of an
ok response may throw; every throw is caught and converted into
`\x7b data: null, error: message \x7d`; success returns `\x7b data \x7d`. -/
def fetchWithErrorHandling {J : Type} (r : FetchOutcome J) : ApiResponse J :=
  match r with
  | .netFailure msg => ⟨none, some msg⟩
  | .response status body =>
    if statusOk status then
      match body with
      | .ok j => ⟨some j, none⟩
      | .error msg => ⟨none, some msg⟩
    else ⟨none, some ("HTTP error! status: " ++ toString status)⟩

/-- `ApiService.generateLearningRoadmap`: its own try/catch with the same
shape; on success it returns `\x7b data, error: null \x7d` (embedded as
`error = none`, like an absent field). -/
def generateLearningRoadmap {J : Type} (r : FetchOutcome J) : ApiResponse J :=
  match r with
  | .netFailure msg => ⟨none, some msg⟩
  | .response status body =>
    if statusOk status then
      match body with
      | .ok j => ⟨some j, none⟩
      | .error msg => ⟨none, some msg⟩
    else ⟨none, some ("HTTP error! status: " ++ toString status)⟩

/-! ## Survey flow (`Survey` component) -/

/-- A survey question as the client sees it (`SurveyQuestion` interface);
the answer widget type is irrelevant to the claims and omitted. -/
structure SurveyQuestion where
  id : String
  required : Bool
  deriving Repr, DecidableEq

/-- `canProceed = !currentQuestion?.required || answers[currentQuestion.id]`.
With no current question the optional chain yields `undefined`, `!undefined`
is `true`. -/
def canProceed (currentQuestion : Option SurveyQuestion)
    (answers : String → Option String) : Bool :=
  match currentQuestion with
  | none => true
  | some q => !q.required || truthyOpt (answers q.id)

/-- The "next" button's `disabled` prop: `!canProceed || isSubmitting`. -/
def nextDisabled (currentQuestion : Option SurveyQuestion)
    (answers : String → Option String) (isSubmitting : Bool) : Bool :=
  !canProceed currentQuestion answers || isSubmitting

/-- An answers map with no entries, for concrete evaluation. -/
def noAnswers : String → Option String := fun _ => none

/-! ## Survey completion: merging answers (`handleSurveyComplete`) -/

/-- One step of the first loop of `handleSurveyComplete`:
`if (answers[q.id] && !allAnswers[q.id]) allAnswers[q.id] = answers[q.id]`. -/
def addInitialAnswer (answers : String → Option String) (acc : Obj)
    (q : SurveyQuestion) : Obj :=
  if truthyOpt (answers q.id) && !truthyOpt (objGet acc q.id) then
    objSet acc q.id ((answers q.id).getD "")
  else acc

/-- One step of the second loop of `handleSurveyComplete`:
`if (answers[q.id]) allAnswers[q.id] = answers[q.id]`. -/
def addAdaptiveAnswer (answers : String → Option String) (acc : Obj)
    (q : SurveyQuestion) : Obj :=
  if truthyOpt (answers q.id) then
    objSet acc q.id ((answers q.id).getD "")
  else acc

/-- `handleSurveyComplete`'s `allAnswers`: start from a spread copy of
`sessionData`, add truthily-answered initial questions not already present,
then add every truthily-answered adaptive question (overwriting). -/
def mergeAllAnswers (sessionData : Obj)
    (initialQuestions adaptiveQuestions : List SurveyQuestion)
    (answers : String → Option String) : Obj :=
  adaptiveQuestions.foldl (addAdaptiveAnswer answers)
    (initialQuestions.foldl (addInitialAnswer answers) sessionData)

/-- Concrete answers map for the C1 witness: initial question "a" was
answered "1" then the adaptive phase re-asked "a" and recorded "2" over it;
"b" holds "x"; everything else unanswered. -/
def witnessAnswers : String → Option String := fun id =>
  if id = "a" then some "2" else if id = "b" then some "x" else none

/-! ## Survey completion: persisted state (`handleSurveyComplete`) -/

/-- The browser key-value store (`localStorage`). -/
abbrev Store := String → Option String

/-- `localStorage.setItem`. -/
def setItem (s : Store) (k v : String) : Store :=
  fun x => if x = k then some v else s x

/-- `localStorage.removeItem`. -/
def removeItem (s : Store) (k : String) : Store :=
  fun x => if x = k then none else s x

/-- The storage effect of a successful `handleSurveyComplete`: write the new
`surveyResults`, then remove `learningRoadmaps` and
`learningRoadmapsTimestamp`; nothing else is touched. -/
def handleSurveyCompleteStore (s : Store) (results : String) : Store :=
  removeItem (removeItem (setItem s "surveyResults" results)
    "learningRoadmaps") "learningRoadmapsTimestamp"

/-! ## Roadmap cache (`Learning.fetchLearningRoadmaps`) -/

/-- What one run of `fetchLearningRoadmaps` does, over career type `α` and
roadmap type `β`:
`requests` — careers a `generateLearningRoadmap` request was issued for
(empty on cache reuse), `displayed` — the roadmaps put into component state,
`cacheWrite` — the stored `learningRoadmaps` list with its
`learningRoadmapsTimestamp` (none if nothing was written), `errorShown` —
whether the error state was set. -/
structure RoadmapFetchResult (α β : Type) where
  requests : List α
  displayed : List β
  cacheWrite : Option (List β × Int)
  errorShown : Bool
  deriving Repr

/-- The regeneration stage: take the top 3 recommendations in rank order,
issue one request per career (the `Promise.all` fan-out preserves order),
map each erroring or throwing request to `null` (`none`) and discard those;
a non-empty surviving set is displayed and stored with timestamp `now`,
otherwise the error state is set and nothing is stored. -/
def regenerateRoadmaps {α β : Type} (recommendations : List α)
    (resp : α → Option β) (now : Int) : RoadmapFetchResult α β :=
  -- picked = recommendations.slice(0, 3); results = await Promise.all(map);
  -- validRoadmaps = results.filter(r => r !== null)
  if ((((recommendations.take 3).map resp).filterMap id).length > 0) then
    ⟨recommendations.take 3, ((recommendations.take 3).map resp).filterMap id,
      some (((recommendations.take 3).map resp).filterMap id, now), false⟩
  else
    ⟨recommendations.take 3, [], none, true⟩

/-- `fetchLearningRoadmaps` after the survey-result guards: with stored
roadmaps and a stored timestamp, reuse them without any request when
`roadmapTimestamp > surveyTimestamp - 60*60*1000` and the parsed list is
non-empty; in every other case fall through to regeneration.  Times are
millisecond epoch values. -/
def fetchLearningRoadmaps {α β : Type} (stored : Option (List β × Int))
    (completedAt : Int) (recommendations : List α) (resp : α → Option β)
    (now : Int) : RoadmapFetchResult α β :=
  match stored with
  | some (storedRoadmaps, roadmapTimestamp) =>
    if roadmapTimestamp > completedAt - 60 * 60 * 1000 ∧
        storedRoadmaps.length > 0 then
      ⟨[], storedRoadmaps, none, false⟩
    else regenerateRoadmaps recommendations resp now
  | none => regenerateRoadmaps recommendations resp now

/-! ## Initial-phase completion (`handleInitialComplete`) -/

/-- The response body of `/submit-initial-answers` as used by the client:
`adaptive_questions` is `none` when the field is absent or `null` (falsy),
`some qs` when an array is present — including the empty array, which is
truthy in JS. -/
structure SubmitInitialData where
  adaptive_questions : Option (List SurveyQuestion)
  session_data : Obj
  deriving Repr, DecidableEq

/-- What `handleInitialComplete` does after the submit request resolves. -/
inductive InitialCompleteOutcome where
  /-- `setError` from the catch block: the response carried a truthy error. -/
  | showError (msg : String)
  /-- Enter the adaptive phase with the returned questions and the merged
  session data, at question index 0. -/
  | enterAdaptive (questions : List SurveyQuestion) (sessionData : Obj)
  /-- No `adaptive_questions` field: fall through to `handleSurveyComplete`. -/
  | proceedToComplete
  deriving Repr, DecidableEq

/-- The `initialAnswers` object built at the top of `handleInitialComplete`:
every initial question with a truthy answer, in question order.  The loop
body `if (answers[q.id]) initialAnswers[q.id] = answers[q.id]` is the same
shape as the adaptive loop of `handleSurveyComplete`, so the same step
function embeds it. -/
def prepareInitialAnswers (initialQuestions : List SurveyQuestion)
    (answers : String → Option String) : Obj :=
  initialQuestions.foldl (addAdaptiveAnswer answers) []

/-- The branching of `handleInitialComplete` on the submit response:
`if (response.error) throw` (truthy check); then
`if (response.data?.adaptive_questions)` — any present array, empty
included, enters the adaptive phase with
`setSessionData(\x7b ...initialAnswers, ...response.data.session_data \x7d)`;
only an absent field (or absent data) falls through to completion. -/
def handleInitialComplete (initialAnswers : Obj)
    (resp : ApiResponse SubmitInitialData) : InitialCompleteOutcome :=
  if truthyOpt resp.error then .showError (resp.error.getD "")
  else
    match resp.data with
    | some d =>
      match d.adaptive_questions with
      | some qs => .enterAdaptive qs (objMerge initialAnswers d.session_data)
      | none => .proceedToComplete
    | none => .proceedToComplete

/-! ## Mentor view (`Mentors` component) -/

/-- A mentor record (`Mentor` interface), restricted to the fields the
filter and view logic read. -/
structure Mentor where
  id : String
  name : String
  title : String
  company : String
  expertise : List String
  deriving Repr, DecidableEq

/-- What `localStorage.getItem('mentorMatchingData')` yields once parsed:
absent, unparseable JSON (`JSON.parse` or destructuring throws), or a parsed
object whose `careers` field is either unusable (`none`: missing or not an
array) or an array, and whose `sessionData` may be absent
(`sessionData || \x7b\x7d`). -/
inductive StoredMatchingPayload where
  | absent
  | malformed
  | parsed (careers : Option (List String)) (sessionData : Option Obj)
  deriving Repr, DecidableEq

/-- The `/match-mentors` response body as read by the view:
`response.data?.mentors || []`. -/
structure PersonalizedMentorsData where
  mentors : Option (List Mentor)
  deriving Repr, DecidableEq

/-- The `/mentors` response body as read by the view: a bare array, a
wrapped `\x7b mentors \x7d` object, or anything else (invalid shape). -/
inductive RegularMentorsData where
  | directArray (mentors : List Mentor)
  | wrapped (mentors : List Mentor)
  | invalidShape
  deriving Repr, DecidableEq

/-- The component state `fetchMentors` leaves behind, plus whether
`mentorMatchingData` was removed from storage. -/
structure MentorsViewResult where
  mentors : List Mentor
  isPersonalized : Bool
  errorMsg : Option String
  payloadCleared : Bool
  deriving Repr, DecidableEq

/-- The regular-mentor branch of `fetchMentors`: a truthy response error or
an invalid data shape lands in the outer catch (error state, empty lists);
a bare array or wrapped object is shown unpersonalized. -/
def loadRegularMentors (resp : ApiResponse RegularMentorsData)
    (cleared : Bool) : MentorsViewResult :=
  if truthyOpt resp.error then ⟨[], false, resp.error, cleared⟩
  else
    match resp.data with
    | some (.directArray ms) => ⟨ms, false, none, cleared⟩
    | some (.wrapped ms) => ⟨ms, false, none, cleared⟩
    | some .invalidShape =>
      ⟨[], false, some "Invalid mentor data format received from server",
        cleared⟩
    | none =>
      ⟨[], false, some "Invalid mentor data format received from server",
        cleared⟩

/-- `Mentors.fetchMentors`: with a matching payload in storage, validate it
and request personalized mentors for the top career; any invalid payload,
erroring request or empty mentor list removes the payload and falls through
to the regular mentor list; a successful personalized result is shown and
the payload is removed after use. -/
def fetchMentors (payload : StoredMatchingPayload)
    (persResp : ApiResponse PersonalizedMentorsData)
    (regResp : ApiResponse RegularMentorsData) : MentorsViewResult :=
  match payload with
  | .absent => loadRegularMentors regResp false
  | .malformed => loadRegularMentors regResp true
  | .parsed careers _ =>
    match careers with
    | none => loadRegularMentors regResp true
    | some [] => loadRegularMentors regResp true
    | some (_ :: _) =>
      if truthyOpt persResp.error then loadRegularMentors regResp true
      else
        match (persResp.data.bind (·.mentors)).getD [] with
        | [] => loadRegularMentors regResp true
        | m :: ms => ⟨m :: ms, true, none, true⟩

/-! ## String primitives (JS `trim`, `toLowerCase`, `includes`) -/

/-- JS `String.prototype.trim` on the character list: drop leading and
trailing whitespace. -/
def trimChars (l : List Char) : List Char :=
  ((l.dropWhile Char.isWhitespace).reverse.dropWhile Char.isWhitespace).reverse

/-- JS `String.prototype.trim`. -/
def jsTrim (s : String) : String := String.mk (trimChars s.data)

/-- JS `String.prototype.toLowerCase` (ASCII case mapping). -/
def jsToLower (s : String) : String := String.mk (s.data.map Char.toLower)

/-- JS `String.prototype.includes` on character lists: `pat` occurs as a
contiguous sublist (the empty pattern always occurs). -/
def listContainsSub (pat : List Char) : List Char → Bool
  | [] => pat.isEmpty
  | c :: rest => pat.isPrefixOf (c :: rest) || listContainsSub pat rest

/-! ## Mentor filter effect (`Mentors` search/expertise filter) -/

/-- JS `String.prototype.includes`: substring containment. -/
def containsSub (s pat : String) : Bool := listContainsSub pat.data s.data

/-- The search predicate of the filter effect: case-insensitive substring
match of the search term against name, title, or company, or against some
expertise entry. -/
def mentorMatchesSearch (searchLower : String) (m : Mentor) : Bool :=
  containsSub (jsToLower m.name) searchLower ||
  containsSub (jsToLower m.title) searchLower ||
  containsSub (jsToLower m.company) searchLower ||
  m.expertise.any (fun e => containsSub (jsToLower e) searchLower)

/-- The filter effect of the mentors view: start from a copy of `mentors`;
if the trimmed search term is non-empty, keep matches of the lowercased
term; if the expertise selection is not `"all"`, keep mentors whose
expertise list contains the selection exactly. -/
def filterMentors (mentors : List Mentor) (searchTerm selectedExpertise :
    String) : List Mentor :=
  let f1 :=
    if jsTrim searchTerm ≠ "" then
      mentors.filter (mentorMatchesSearch (jsToLower searchTerm))
    else mentors
  if selectedExpertise ≠ "all" then
    f1.filter (fun m => m.expertise.contains selectedExpertise)
  else f1

/-! ## Display-text normalizer (`Learning.formatRoadmapText` and helpers)

The regex-based string transformations are embedded as character-list
functions.  `/\n\s*\n/g → '\n'` is embedded per maximal whitespace run: a
global greedy match starts at the first newline of a run and extends to the
run's last newline, so each run with two or more newlines collapses to
`before-first-newline ++ '\n' ++ after-last-newline`, and matches never span
the non-whitespace character between runs. -/

/-- One maximal whitespace run under `/\n\s*\n/g → '\n'`: with at least two
newlines, everything from the first to the last newline becomes one
newline. -/
def collapseRun (r : List Char) : List Char :=
  if 2 ≤ r.count '\n' then
    r.takeWhile (fun c => c ≠ '\n') ++ '\n' ::
      (r.reverse.takeWhile (fun c => c ≠ '\n')).reverse
  else r

/-- Scan the text buffering the current whitespace run (reversed in `buf`);
flush each completed run through `collapseRun`. -/
def collapseNlAux : List Char → List Char → List Char
  | buf, [] => collapseRun buf.reverse
  | buf, c :: rest =>
    if c.isWhitespace then collapseNlAux (c :: buf) rest
    else collapseRun buf.reverse ++ c :: collapseNlAux [] rest

/-- `.replace(/\n\s*\n/g, '\n')`. -/
def collapseNl (l : List Char) : List Char := collapseNlAux [] l

/-- `.replace(/\*\*/g, '')`: remove pairs of adjacent asterisks, left to
right, resuming after each removed pair. -/
def removeDoubleStar : List Char → List Char
  | [] => []
  | [c] => [c]
  | c :: d :: rest =>
    if c = '*' ∧ d = '*' then removeDoubleStar rest
    else c :: removeDoubleStar (d :: rest)

/-- The character-removal chain of `cleanMarkdownText`:
`** → ''`, `* → ''`, `_ → ''`, backtick `→ ''`, `~ → ''`, `# → ''`. -/
def stripMarkdownChars (l : List Char) : List Char :=
  (((((removeDoubleStar l).filter (fun c => c ≠ '*')).filter
    (fun c => c ≠ '_')).filter (fun c => c ≠ '\x60')).filter
    (fun c => c ≠ '~')).filter (fun c => c ≠ '#')

/-- `Learning.cleanMarkdownText`: strip markdown emphasis characters,
collapse blank lines, trim. -/
def cleanMarkdownText (text : String) : String :=
  String.mk (trimChars (collapseNl (stripMarkdownChars text.data)))

/-- `.replace(/[{}"[\]]/g, '')`. -/
def stripJsonPunct (l : List Char) : List Char :=
  l.filter (fun c =>
    !(c = '\x7b' || c = '\x7d' || c = '"' || c = '[' || c = ']'))

/-- `.replace(/_/g, ' ')`. -/
def underscoreToSpace (l : List Char) : List Char :=
  l.map (fun c => if c = '_' then ' ' else c)

/-- `.replace(/,\s*/g, '\n• ')`: each comma plus the greedily consumed
whitespace after it becomes a bullet break. -/
def commaWsFuel : Nat → List Char → List Char
  | 0, l => l
  | _ + 1, [] => []
  | fuel + 1, c :: rest =>
    if c = ',' then
      '\n' :: '•' :: ' ' :: commaWsFuel fuel (rest.dropWhile Char.isWhitespace)
    else c :: commaWsFuel fuel rest

/-- `.replace(/,\s*/g, '\n• ')` with enough fuel. -/
def commaWs (l : List Char) : List Char := commaWsFuel l.length l

/-- `.replace(/^\s*/, '• ')`: the non-global anchored match replaces the
(possibly empty) leading whitespace with a bullet. -/
def bulletStart (l : List Char) : List Char :=
  '•' :: ' ' :: l.dropWhile Char.isWhitespace

/-- The final fallback branch of `formatRoadmapText`:
`cleanMarkdownText(text)` then strip JSON punctuation, underscores to
spaces, commas to bullets, leading bullet, trim. -/
def roadmapFallback (text : String) : String :=
  String.mk (trimChars (bulletStart (commaWs (underscoreToSpace
    (stripJsonPunct (cleanMarkdownText text).data)))))

/-- All full matches of `/LIT\s*\[(.*?)\]/g` (the `"Focus Areas"` /
`"Milestones"` extraction): the literal, greedy whitespace, `[`, a lazy
non-newline body (JS `.` does not match newlines), `]`.  A failed attempt
resumes the search at the next position; fuel is the input length. -/
def scanLitBracketFuel (lit : List Char) : Nat → List Char → List (List Char)
  | 0, _ => []
  | _ + 1, [] => []
  | fuel + 1, c :: rest =>
    if lit.isPrefixOf (c :: rest) then
      let afterLit := (c :: rest).drop lit.length
      let ws := afterLit.takeWhile Char.isWhitespace
      match afterLit.drop ws.length with
      | '[' :: afterBr =>
        let body := afterBr.takeWhile
          (fun x => x ≠ ']' && x ≠ '\n' && x ≠ '\r')
        match afterBr.drop body.length with
        | ']' :: restAfter =>
          (lit ++ ws ++ '[' :: body ++ [']']) ::
            scanLitBracketFuel lit fuel restAfter
        | _ => scanLitBracketFuel lit fuel rest
      | _ => scanLitBracketFuel lit fuel rest
    else scanLitBracketFuel lit fuel rest

/-- `data.match(/LIT\s*\[(.*?)\]/g)` as a list of full matches
(`[]` embeds the JS `null`). -/
def scanLitBracket (lit l : List Char) : List (List Char) :=
  scanLitBracketFuel lit l.length l

/-- All full matches of `/LIT\s*"([^"]+)"/g` (the `"Description"`
extraction): the literal, greedy whitespace, a quoted non-empty body. -/
def scanLitQuotedFuel (lit : List Char) : Nat → List Char → List (List Char)
  | 0, _ => []
  | _ + 1, [] => []
  | fuel + 1, c :: rest =>
    if lit.isPrefixOf (c :: rest) then
      let afterLit := (c :: rest).drop lit.length
      let ws := afterLit.takeWhile Char.isWhitespace
      match afterLit.drop ws.length with
      | '"' :: afterQ =>
        let body := afterQ.takeWhile (fun x => x ≠ '"')
        match afterQ.drop body.length, body with
        | '"' :: restAfter, _ :: _ =>
          (lit ++ ws ++ '"' :: body ++ ['"']) ::
            scanLitQuotedFuel lit fuel restAfter
        | _, _ => scanLitQuotedFuel lit fuel rest
      | _ => scanLitQuotedFuel lit fuel rest
    else scanLitQuotedFuel lit fuel rest

/-- `data.match(/LIT\s*"([^"]+)"/g)` as a list of full matches. -/
def scanLitQuoted (lit l : List Char) : List (List Char) :=
  scanLitQuotedFuel lit l.length l

/-- First capture of `/\[(.*?)\]/` on a match string
(`match.match(/\[(.*?)\]/)[1]`): the body between the first `[` that is
followed by a `]` with no newline in between; `none` embeds the thrown
`TypeError` on a null inner match. -/
def bracketBodyFuel : Nat → List Char → Option (List Char)
  | 0, _ => none
  | _ + 1, [] => none
  | fuel + 1, c :: rest =>
    if c = '[' then
      let body := rest.takeWhile (fun x => x ≠ ']' && x ≠ '\n' && x ≠ '\r')
      match rest.drop body.length with
      | ']' :: _ => some body
      | _ => bracketBodyFuel fuel rest
    else bracketBodyFuel fuel rest

/-- `match.match(/\[(.*?)\]/)[1]`. -/
def bracketBody (m : List Char) : Option (List Char) :=
  bracketBodyFuel m.length m

/-- First capture of `/LIT\s*"([^"]+)"/` on a match string. -/
def descCaptureFuel (lit : List Char) : Nat → List Char → Option (List Char)
  | 0, _ => none
  | _ + 1, [] => none
  | fuel + 1, c :: rest =>
    if lit.isPrefixOf (c :: rest) then
      let afterLit := (c :: rest).drop lit.length
      let ws := afterLit.takeWhile Char.isWhitespace
      match afterLit.drop ws.length with
      | '"' :: afterQ =>
        let body := afterQ.takeWhile (fun x => x ≠ '"')
        match afterQ.drop body.length, body with
        | '"' :: _, _ :: _ => some body
        | _, _ => descCaptureFuel lit fuel rest
      | _ => descCaptureFuel lit fuel rest
    else descCaptureFuel lit fuel rest

/-- `match.match(/"Description":\s*"([^"]+)"/)[1]`. -/
def descCapture (lit m : List Char) : Option (List Char) :=
  descCaptureFuel lit m.length m

/-- `.split('", "')`: split on the four-character separator. -/
def splitOnSepFuel (sep : List Char) : Nat → List Char → List (List Char)
  | 0, l => [l]
  | _ + 1, [] => [[]]
  | fuel + 1, c :: rest =>
    if sep.isPrefixOf (c :: rest) then
      [] :: splitOnSepFuel sep fuel ((c :: rest).drop sep.length)
    else
      match splitOnSepFuel sep fuel rest with
      | h :: t => (c :: h) :: t
      | [] => [[c]]

/-- `.split('", "')` with enough fuel. -/
def splitOnSep (sep l : List Char) : List (List Char) :=
  splitOnSepFuel sep l.length l

/-- The separator `'", "'`. -/
def quoteCommaSep : List Char := ['"', ',', ' ', '"']

/-- The literal `"Focus Areas":` (quotes included). -/
def focusAreasLit : List Char := ("\"Focus Areas\":").data

/-- The literal `"Description":`. -/
def descriptionLit : List Char := ("\"Description\":").data

/-- The literal `"Milestones":`. -/
def milestonesLit : List Char := ("\"Milestones\":").data

/-- Per focus-areas match: bracket body, split on `'", "'`, quotes removed,
each area bulleted, joined with newlines. -/
def processAreasMatch (m : List Char) : Option (List Char) :=
  (bracketBody m).map (fun b =>
    List.intercalate ['\n']
      (((splitOnSep quoteCommaSep b).map
        (fun area => area.filter (fun c => c ≠ '"'))).map
        (fun area => '•' :: ' ' :: area)))

/-- Per milestones match: like focus areas, with the target emoji. -/
def processMilestoneMatch (m : List Char) : Option (List Char) :=
  (bracketBody m).map (fun b =>
    List.intercalate ['\n']
      (((splitOnSep quoteCommaSep b).map
        (fun item => item.filter (fun c => c ≠ '"'))).map
        (fun item => '🎯' :: ' ' :: item)))

/-- Per description match: the captured text with the clipboard emoji. -/
def processDescMatch (m : List Char) : Option (List Char) :=
  (descCapture descriptionLit m).map (fun b => '📋' :: ' ' :: b)

/-- Traverse a list under an `Option`-returning function; `none` embeds a
thrown `TypeError` from any element. -/
def optionMapAll {α β : Type} (f : α → Option β) : List α → Option (List β)
  | [] => some []
  | x :: xs =>
    match f x, optionMapAll f xs with
    | some y, some ys => some (y :: ys)
    | _, _ => none

/-- `.replace(/LIT/g, REPL)` for a literal pattern. -/
def replaceAllFuel (pat repl : List Char) : Nat → List Char → List Char
  | 0, l => l
  | _ + 1, [] => []
  | fuel + 1, c :: rest =>
    if pat.isPrefixOf (c :: rest) then
      repl ++ replaceAllFuel pat repl fuel ((c :: rest).drop pat.length)
    else c :: replaceAllFuel pat repl fuel rest

/-- `.replace(/LIT/g, REPL)` with enough fuel. -/
def replaceAll (pat repl l : List Char) : List Char :=
  replaceAllFuel pat repl l.length l

/-- `.replace(/,\s*"/g, '\n• ')`: comma, greedy whitespace, then a quote. -/
def commaWsQuoteFuel : Nat → List Char → List Char
  | 0, l => l
  | _ + 1, [] => []
  | fuel + 1, c :: rest =>
    if c = ',' then
      match rest.drop (rest.takeWhile Char.isWhitespace).length with
      | '"' :: after => '\n' :: '•' :: ' ' :: commaWsQuoteFuel fuel after
      | _ => ',' :: commaWsQuoteFuel fuel rest
    else c :: commaWsQuoteFuel fuel rest

/-- `.replace(/,\s*"/g, '\n• ')` with enough fuel. -/
def commaWsQuote (l : List Char) : List Char := commaWsQuoteFuel l.length l

/-- The catch block of `parseStructuredLearningData`: markdown cleanup, JSON
punctuation stripped, labeled sections (dead after the quotes are gone),
comma-quote bullets, quote removal, trim. -/
def structuredFallbackCleanup (data : String) : String :=
  String.mk (trimChars
    (replaceAll ['"'] []
      (commaWsQuote
        (replaceAll milestonesLit ("\n🎯 Milestones:").data
          (replaceAll descriptionLit ("\n📋 Description:").data
            (replaceAll focusAreasLit ("\n📚 Focus Areas:").data
              (stripJsonPunct (cleanMarkdownText data).data)))))))

/-- `Learning.parseStructuredLearningData`: extract focus areas,
descriptions and milestones by pattern matching; a `null` list of matches
(`[]` here) pushes no section; any failed inner re-match (a thrown
`TypeError`, `none` here — unreachable, since every full match contains its
bracket or quoted body) falls back to the character-stripping cleanup. -/
def parseStructuredLearningData (data : String) : String :=
  let focusMatches := scanLitBracket focusAreasLit data.data
  let descMatches := scanLitQuoted descriptionLit data.data
  let milestoneMatches := scanLitBracket milestonesLit data.data
  match optionMapAll processAreasMatch focusMatches,
      optionMapAll processDescMatch descMatches,
      optionMapAll processMilestoneMatch milestoneMatches with
  | some fs, some ds, some ms =>
    cleanMarkdownText (String.mk (List.intercalate ['\n', '\n']
      ((if focusMatches.isEmpty then [] else
          [List.intercalate ['\n'] fs]) ++
        (if descMatches.isEmpty then [] else ds) ++
        (if milestoneMatches.isEmpty then [] else
          [List.intercalate ['\n'] ms]))))
  | _, _, _ => structuredFallbackCleanup data

/-- `Learning.formatRoadmapText` on string inputs (the
`typeof text === 'object'` branch is unreachable for strings): empty string
is falsy; a short plain string with no `\x7b` and no `"Focus Areas"` takes the
markdown-cleanup fast path; a string with `"Focus Areas"` or `\x7b"` takes the
structured parse; everything else takes the stripping fallback.  JS
`.length` counts UTF-16 units; the embedding counts characters, which
agrees on all non-astral text. -/
def formatRoadmapText (text : String) : String :=
  if text = "" then "Data not available"
  else if containsSub text "\x7b" = false ∧
      containsSub text "\"Focus Areas\"" = false ∧ text.data.length < 500 then
    cleanMarkdownText text
  else if containsSub text "\"Focus Areas\"" = true ∨
      containsSub text "\x7b\"" = true then
    parseStructuredLearningData text
  else roadmapFallback text

/-! ## Normalizer lemmas: `cleanMarkdownText` is idempotent -/

/-- A newline, some whitespace, then another newline occurs somewhere. -/
def hasBlankPat : List Char → Bool
  | [] => false
  | c :: rest =>
    ((c == '\n') && (rest.takeWhile Char.isWhitespace).contains '\n') ||
      hasBlankPat rest

/-! ## Theorems -/

@[simp] theorem objGet_nil (k : String) : objGet [] k = none := rfl

theorem objGet_objSet_self (o : Obj) (k v : String) :
    objGet (objSet o k v) k = some v := by
  induction o with
  | nil => simp [objSet, objGet]
  | cons hd tl ih =>
    obtain ⟨k', v'⟩ := hd
    by_cases h : k' = k
    · simp [objSet, objGet, h]
    · simp [objSet, objGet, h, ih]

theorem objGet_objSet_ne (o : Obj) (k v k' : String) (h : k' ≠ k) :
    objGet (objSet o k v) k' = objGet o k' := by
  have hk : ¬ k = k' := fun e => h e.symm
  induction o with
  | nil => simp [objSet, objGet, hk]
  | cons hd tl ih =>
    obtain ⟨k₀, v₀⟩ := hd
    by_cases h₀ : k₀ = k
    · subst h₀
      simp [objSet, objGet, hk]
    · by_cases h₁ : k₀ = k' <;> simp [objSet, objGet, h₀, h₁, ih, h]

theorem objKeys_objSet (o : Obj) (k v : String) :
    objKeys (objSet o k v) =
      if k ∈ objKeys o then objKeys o else objKeys o ++ [k] := by
  induction o with
  | nil => simp [objSet, objKeys]
  | cons hd tl ih =>
    obtain ⟨k₀, v₀⟩ := hd
    by_cases h₀ : k₀ = k
    · subst h₀
      simp [objSet, objKeys]
    · have hne : ¬ k = k₀ := fun e => h₀ e.symm
      simp only [objKeys] at ih
      by_cases hmem : k ∈ List.map Prod.fst tl <;>
        simp [objSet, objKeys, h₀, hne, hmem, ih]

theorem objKeys_objSet_nodup (o : Obj) (k v : String)
    (h : (objKeys o).Nodup) : (objKeys (objSet o k v)).Nodup := by
  rw [objKeys_objSet]
  by_cases hmem : k ∈ objKeys o
  · simpa [hmem] using h
  · simp [hmem, List.nodup_append, h]

/-- C5: Every API client operation returns a discriminated result that is
either `\x7b data: T \x7d` on success or `\x7b data: null, error: string \x7d` on
failure, and never throws past the API-client boundary: any network failure,
non-2xx HTTP status, or JSON-parse failure is caught and converted into the
error variant.  (In the embedding, `fetchWithErrorHandling` and
`generateLearningRoadmap` are total functions of the fetch outcome — no
outcome escapes as an exception — and every result is one of the two
variants.) -/
theorem apiClient_discriminated_result {J : Type} (r : FetchOutcome J) :
    ((∃ d, fetchWithErrorHandling r = ⟨some d, none⟩) ∨
      (∃ msg, fetchWithErrorHandling r = ⟨none, some msg⟩)) ∧
    ((∃ d, generateLearningRoadmap r = ⟨some d, none⟩) ∨
      (∃ msg, generateLearningRoadmap r = ⟨none, some msg⟩)) := by
  constructor
  · cases r with
    | netFailure msg => exact Or.inr ⟨msg, rfl⟩
    | response status body =>
      by_cases h : statusOk status = true
      · cases body with
        | ok j => exact Or.inl ⟨j, by simp [fetchWithErrorHandling, h]⟩
        | error msg => exact Or.inr ⟨msg, by simp [fetchWithErrorHandling, h]⟩
      · exact Or.inr ⟨"HTTP error! status: " ++ toString status,
          by simp [fetchWithErrorHandling, h]⟩
  · cases r with
    | netFailure msg => exact Or.inr ⟨msg, rfl⟩
    | response status body =>
      by_cases h : statusOk status = true
      · cases body with
        | ok j => exact Or.inl ⟨j, by simp [generateLearningRoadmap, h]⟩
        | error msg => exact Or.inr ⟨msg, by simp [generateLearningRoadmap, h]⟩
      · exact Or.inr ⟨"HTTP error! status: " ++ toString status,
          by simp [generateLearningRoadmap, h]⟩

/-- C2, counterexample: the claim says "next" is disabled **iff** the current
question is required and unanswered.  With a non-required current question and
`isSubmitting = true` the button is disabled even though the question is not
required, so the stated iff fails. -/
theorem nextDisabled_not_iff_required_unanswered :
    nextDisabled (some ⟨"q1", false⟩) noAnswers true = true ∧
    (⟨"q1", false⟩ : SurveyQuestion).required = false := by
  constructor <;> rfl

/-- C2, amended: "next" is disabled iff the current question is required with
no truthy recorded answer, **or** a submission is in flight. -/
theorem nextDisabled_iff (currentQuestion : Option SurveyQuestion)
    (answers : String → Option String) (isSubmitting : Bool) :
    nextDisabled currentQuestion answers isSubmitting = true ↔
      ((∃ q, currentQuestion = some q ∧ q.required = true ∧
          truthyOpt (answers q.id) = false) ∨ isSubmitting = true) := by
  cases currentQuestion with
  | none => simp [nextDisabled, canProceed]
  | some q =>
    cases hr : q.required <;>
      cases ha : truthyOpt (answers q.id) <;>
        cases isSubmitting <;>
          simp [nextDisabled, canProceed, hr, ha]

theorem addInitialAnswer_nodup (answers : String → Option String) (acc : Obj)
    (q : SurveyQuestion) (h : (objKeys acc).Nodup) :
    (objKeys (addInitialAnswer answers acc q)).Nodup := by
  unfold addInitialAnswer
  split
  · exact objKeys_objSet_nodup _ _ _ h
  · exact h

theorem addAdaptiveAnswer_nodup (answers : String → Option String) (acc : Obj)
    (q : SurveyQuestion) (h : (objKeys acc).Nodup) :
    (objKeys (addAdaptiveAnswer answers acc q)).Nodup := by
  unfold addAdaptiveAnswer
  split
  · exact objKeys_objSet_nodup _ _ _ h
  · exact h

theorem foldl_nodup (step : Obj → SurveyQuestion → Obj)
    (hstep : ∀ acc q, (objKeys acc).Nodup → (objKeys (step acc q)).Nodup)
    (qs : List SurveyQuestion) (acc : Obj) (h : (objKeys acc).Nodup) :
    (objKeys (qs.foldl step acc)).Nodup := by
  induction qs generalizing acc with
  | nil => exact h
  | cons q qs ih => exact ih _ (hstep _ _ h)

theorem addInitialAnswer_preserves_truthy (answers : String → Option String)
    (acc : Obj) (q : SurveyQuestion) (id : String)
    (h : truthyOpt (objGet acc id) = true) :
    truthyOpt (objGet (addInitialAnswer answers acc q) id) = true := by
  unfold addInitialAnswer
  split
  · next hc =>
    by_cases hid : q.id = id
    · subst hid
      simp only [Bool.and_eq_true, Bool.not_eq_true'] at hc
      rw [h] at hc
      exact absurd hc.2 (by simp)
    · rwa [objGet_objSet_ne _ _ _ _ (fun e => hid e.symm)]
  · exact h

theorem addAdaptiveAnswer_preserves_truthy (answers : String → Option String)
    (acc : Obj) (q : SurveyQuestion) (id : String)
    (h : truthyOpt (objGet acc id) = true) :
    truthyOpt (objGet (addAdaptiveAnswer answers acc q) id) = true := by
  unfold addAdaptiveAnswer
  split
  · next hc =>
    by_cases hid : q.id = id
    · subst hid
      rw [objGet_objSet_self]
      cases hv : answers q.id with
      | none => rw [hv] at hc; exact absurd hc (by simp [truthyOpt])
      | some v =>
        rw [hv] at hc
        simpa [truthyOpt, hv] using hc
    · rwa [objGet_objSet_ne _ _ _ _ (fun e => hid e.symm)]
  · exact h

theorem foldl_preserves_truthy (step : Obj → SurveyQuestion → Obj)
    (hstep : ∀ acc q id, truthyOpt (objGet acc id) = true →
      truthyOpt (objGet (step acc q) id) = true)
    (qs : List SurveyQuestion) (acc : Obj) (id : String)
    (h : truthyOpt (objGet acc id) = true) :
    truthyOpt (objGet (qs.foldl step acc) id) = true := by
  induction qs generalizing acc with
  | nil => exact h
  | cons q qs ih => exact ih _ (hstep _ _ _ h)

theorem foldl_addInitial_mem_truthy (answers : String → Option String)
    (qs : List SurveyQuestion) (acc : Obj) (q : SurveyQuestion)
    (hq : q ∈ qs) (ha : truthyOpt (answers q.id) = true) :
    truthyOpt (objGet (qs.foldl (addInitialAnswer answers) acc) q.id) = true := by
  induction qs generalizing acc with
  | nil => cases hq
  | cons q₀ qs ih =>
    rcases List.mem_cons.mp hq with h | h
    · subst h
      rw [List.foldl_cons]
      apply foldl_preserves_truthy _
        (addInitialAnswer_preserves_truthy answers)
      unfold addInitialAnswer
      split
      · next hc =>
        rw [objGet_objSet_self]
        cases hv : answers q.id with
        | none => rw [hv] at ha; exact absurd ha (by simp [truthyOpt])
        | some v => rw [hv] at ha; simpa [truthyOpt, hv] using ha
      · next hc =>
        simp only [Bool.and_eq_true, Bool.not_eq_true', not_and,
          Bool.not_eq_false] at hc
        exact hc ha
    · exact ih _ h

theorem foldl_addAdaptive_mem_get (answers : String → Option String)
    (qs : List SurveyQuestion) (acc : Obj) (q : SurveyQuestion)
    (hq : q ∈ qs) (ha : truthyOpt (answers q.id) = true) :
    objGet (qs.foldl (addAdaptiveAnswer answers) acc) q.id = answers q.id := by
  obtain ⟨v, hv⟩ : ∃ v, answers q.id = some v := by
    cases hv : answers q.id with
    | none => rw [hv] at ha; exact absurd ha (by simp [truthyOpt])
    | some v => exact ⟨v, rfl⟩
  -- once the lookup agrees with `answers` at `q.id`, later steps keep it
  have hpres : ∀ (qs' : List SurveyQuestion) (acc' : Obj),
      objGet acc' q.id = answers q.id →
      objGet (qs'.foldl (addAdaptiveAnswer answers) acc') q.id = answers q.id := by
    intro qs'
    induction qs' with
    | nil => intro acc' h; exact h
    | cons q₀ qs' ih =>
      intro acc' h
      apply ih
      unfold addAdaptiveAnswer
      split
      · by_cases hid : q₀.id = q.id
        · rw [hid, objGet_objSet_self, hv]
          simp
        · rwa [objGet_objSet_ne _ _ _ _ (fun e => hid e.symm)]
      · exact h
  induction qs generalizing acc with
  | nil => cases hq
  | cons q₀ qs ih =>
    rcases List.mem_cons.mp hq with h | h
    · subst h
      rw [List.foldl_cons]
      apply hpres
      unfold addAdaptiveAnswer
      rw [ha]
      simp only [if_pos]
      rw [objGet_objSet_self, hv]
      simp
    · exact ih _ h

/-- C1: the merged answer map submitted by `handleSurveyComplete` contains
each truthily answered question id from the initial and adaptive phases
exactly once (its key list stays duplicate-free), and for every adaptive
question the recorded value is exactly the one in the shared `answers` map —
so on an id collision between phases the adaptive-phase answer wins. -/
theorem mergeAllAnswers_spec (sessionData : Obj)
    (initialQuestions adaptiveQuestions : List SurveyQuestion)
    (answers : String → Option String)
    (hnd : (objKeys sessionData).Nodup) :
    (objKeys (mergeAllAnswers sessionData initialQuestions adaptiveQuestions
        answers)).Nodup ∧
    (∀ q ∈ initialQuestions, truthyOpt (answers q.id) = true →
      truthyOpt (objGet (mergeAllAnswers sessionData initialQuestions
        adaptiveQuestions answers) q.id) = true) ∧
    (∀ q ∈ adaptiveQuestions, truthyOpt (answers q.id) = true →
      objGet (mergeAllAnswers sessionData initialQuestions adaptiveQuestions
        answers) q.id = answers q.id) := by
  unfold mergeAllAnswers
  refine ⟨?_, ?_, ?_⟩
  · exact foldl_nodup _ (addAdaptiveAnswer_nodup answers) _ _
      (foldl_nodup _ (addInitialAnswer_nodup answers) _ _ hnd)
  · intro q hq ha
    exact foldl_preserves_truthy _
      (addAdaptiveAnswer_preserves_truthy answers) _ _ _
      (foldl_addInitial_mem_truthy answers _ _ _ hq ha)
  · intro q hq ha
    exact foldl_addAdaptive_mem_get answers _ _ _ hq ha

/-- C1 witness: the theorem applied at a concrete collision — initial
questions `a`, `b`, adaptive question `a`, server session data `(a, 1)`. -/
theorem mergeAllAnswers_spec_witness :
    (objKeys [("a", "1")]).Nodup ∧
    ((objKeys (mergeAllAnswers [("a", "1")] [⟨"a", true⟩, ⟨"b", false⟩]
        [⟨"a", true⟩] witnessAnswers)).Nodup ∧
    (∀ q ∈ [(⟨"a", true⟩ : SurveyQuestion), ⟨"b", false⟩],
      truthyOpt (witnessAnswers q.id) = true →
      truthyOpt (objGet (mergeAllAnswers [("a", "1")]
        [⟨"a", true⟩, ⟨"b", false⟩] [⟨"a", true⟩] witnessAnswers) q.id) = true) ∧
    (∀ q ∈ [(⟨"a", true⟩ : SurveyQuestion)],
      truthyOpt (witnessAnswers q.id) = true →
      objGet (mergeAllAnswers [("a", "1")] [⟨"a", true⟩, ⟨"b", false⟩]
        [⟨"a", true⟩] witnessAnswers) q.id = witnessAnswers q.id)) :=
  ⟨by decide, mergeAllAnswers_spec [("a", "1")] [⟨"a", true⟩, ⟨"b", false⟩]
    [⟨"a", true⟩] witnessAnswers (by decide)⟩

/-- C6: on every successful survey completion the prior persisted survey
result is overwritten with the new one, the roadmap cache and its timestamp
key are unconditionally removed, and every other key of the store is left
unchanged. -/
theorem handleSurveyCompleteStore_spec (s : Store) (results : String) :
    handleSurveyCompleteStore s results "surveyResults" = some results ∧
    handleSurveyCompleteStore s results "learningRoadmaps" = none ∧
    handleSurveyCompleteStore s results "learningRoadmapsTimestamp" = none ∧
    (∀ k, k ≠ "surveyResults" → k ≠ "learningRoadmaps" →
      k ≠ "learningRoadmapsTimestamp" →
      handleSurveyCompleteStore s results k = s k) := by
  refine ⟨rfl, rfl, rfl, fun k h₁ h₂ h₃ => ?_⟩
  simp [handleSurveyCompleteStore, removeItem, setItem, h₁, h₂, h₃]

/-- C6 witness: the theorem applied to a concrete one-key store, with the
frame conjunct discharged at the untouched key `"other"`. -/
theorem handleSurveyCompleteStore_spec_witness :
    handleSurveyCompleteStore (fun k => if k = "other" then some "v" else none)
      "res" "other" = some "v" :=
  (handleSurveyCompleteStore_spec
    (fun k => if k = "other" then some "v" else none) "res").2.2.2 "other"
    (by decide) (by decide) (by decide)

/-- C3: the roadmap cache is treated as fresh and reused — no generation
request issued, cached list displayed, nothing rewritten — iff
`generatedAt > completedAt - 1h` and the cached list is non-empty; every
other configuration regenerates.  In particular `generatedAt =
completedAt + 30min` (with a non-empty cache) is reused and `generatedAt =
completedAt - 2h` regenerates. -/
theorem roadmapCache_fresh_iff {α β : Type} (stored : Option (List β × Int))
    (completedAt : Int) (recommendations : List α) (resp : α → Option β)
    (now : Int) (cached : List β) (h : cached ≠ []) :
    ((∃ rms genAt, stored = some (rms, genAt) ∧
        genAt > completedAt - 60 * 60 * 1000 ∧ rms ≠ [] ∧
        fetchLearningRoadmaps stored completedAt recommendations resp now =
          ⟨[], rms, none, false⟩) ∨
      ((¬ ∃ rms genAt, stored = some (rms, genAt) ∧
          genAt > completedAt - 60 * 60 * 1000 ∧ rms ≠ []) ∧
        fetchLearningRoadmaps stored completedAt recommendations resp now =
          regenerateRoadmaps recommendations resp now)) ∧
    fetchLearningRoadmaps (some (cached, completedAt + 30 * 60 * 1000))
      completedAt recommendations resp now = ⟨[], cached, none, false⟩ ∧
    fetchLearningRoadmaps (some (cached, completedAt - 2 * 60 * 60 * 1000))
      completedAt recommendations resp now =
      regenerateRoadmaps recommendations resp now := by
  refine ⟨?_, ?_, ?_⟩
  · cases stored with
    | none =>
      refine Or.inr ⟨?_, rfl⟩
      rintro ⟨rms, genAt, heq, -, -⟩
      exact Option.noConfusion heq
    | some p =>
      obtain ⟨rms, genAt⟩ := p
      by_cases hfresh : genAt > completedAt - 60 * 60 * 1000 ∧ rms.length > 0
      · refine Or.inl ⟨rms, genAt, rfl, hfresh.1, ?_, ?_⟩
        · intro he
          rw [he] at hfresh
          exact absurd hfresh.2 (by simp)
        · simp only [fetchLearningRoadmaps]
          rw [if_pos hfresh]
      · refine Or.inr ⟨?_, ?_⟩
        · rintro ⟨rms', genAt', heq, hgt, hne⟩
          injection heq with heq
          injection heq with h₁ h₂
          subst h₁; subst h₂
          exact hfresh ⟨hgt, List.length_pos.mpr hne⟩
        · simp only [fetchLearningRoadmaps]
          rw [if_neg hfresh]
  · simp only [fetchLearningRoadmaps]
    rw [if_pos ⟨by omega, List.length_pos.mpr h⟩]
  · simp only [fetchLearningRoadmaps]
    rw [if_neg]
    rintro ⟨hgt, -⟩
    omega

/-- C3 witness: the theorem applied at a concrete store and timeline. -/
theorem roadmapCache_fresh_iff_witness :
    (["r1"] : List String) ≠ [] ∧
    fetchLearningRoadmaps (some (["r1"], (1000000 : Int) + 30 * 60 * 1000))
      1000000 ["c1"] (fun _ => (some "r1" : Option String)) 2000000 =
      ⟨[], ["r1"], none, false⟩ :=
  ⟨by decide,
    (roadmapCache_fresh_iff (some (["r1"], (1000000 : Int) + 30 * 60 * 1000))
      1000000 ["c1"] (fun _ => (some "r1" : Option String)) 2000000 ["r1"]
      (by decide)).2.1⟩

/-- C4 counterexample: when all three generation requests error, the code
stores nothing (no fresh timestamp is written) and sets the error state —
refuting "stores the surviving roadmaps … even if fewer than 3 succeeded"
and "no error is surfaced" read down to zero successes. -/
theorem regenerateRoadmaps_all_fail_counterexample :
    regenerateRoadmaps ["c1", "c2", "c3"] (fun _ => (none : Option String))
        7 = ⟨["c1", "c2", "c3"], [], none, true⟩ ∧
    (⟨["c1", "c2", "c3"], [], none, true⟩ :
        RoadmapFetchResult String String).cacheWrite = none ∧
    (⟨["c1", "c2", "c3"], [], none, true⟩ :
        RoadmapFetchResult String String).errorShown = true := by
  refine ⟨?_, rfl, rfl⟩
  rfl

/-- C4, amended: on a stale or absent cache, regeneration issues one request
per career for exactly the top (at most) 3 recommendations, in rank order;
every erroring request is discarded; if **at least one** succeeded, the
surviving roadmaps are displayed and stored with a fresh timestamp and no
error is surfaced (even with fewer than 3 successes); if all failed, nothing
is stored and the error state is set.  In the 3-career scenario where
exactly the 2nd call errors, exactly the two surviving roadmaps are cached
and displayed with no error. -/
theorem regenerateRoadmaps_spec {α β : Type} (recommendations : List α)
    (resp : α → Option β) (now : Int) :
    (regenerateRoadmaps recommendations resp now).requests =
      recommendations.take 3 ∧
    ((recommendations.take 3).filterMap resp ≠ [] →
      regenerateRoadmaps recommendations resp now =
        ⟨recommendations.take 3, (recommendations.take 3).filterMap resp,
          some ((recommendations.take 3).filterMap resp, now), false⟩) ∧
    ((recommendations.take 3).filterMap resp = [] →
      regenerateRoadmaps recommendations resp now =
        ⟨recommendations.take 3, [], none, true⟩) ∧
    (∀ c₁ c₂ c₃ r₁ r₃, recommendations = [c₁, c₂, c₃] →
      resp c₁ = some r₁ → resp c₂ = none → resp c₃ = some r₃ →
      regenerateRoadmaps recommendations resp now =
        ⟨[c₁, c₂, c₃], [r₁, r₃], some ([r₁, r₃], now), false⟩) := by
  have hmap : ∀ l : List α, (l.map resp).filterMap id = l.filterMap resp := by
    intro l
    induction l with
    | nil => rfl
    | cons x xs ih =>
      cases hx : resp x <;> simp [List.filterMap, hx, ih]
  refine ⟨?_, ?_, ?_, ?_⟩
  · unfold regenerateRoadmaps
    split <;> rfl
  · intro hne
    unfold regenerateRoadmaps
    simp only [hmap]
    rw [if_pos (List.length_pos.mpr hne)]
  · intro hnil
    unfold regenerateRoadmaps
    simp only [hmap, hnil]
    rw [if_neg (by simp)]
  · intro c₁ c₂ c₃ r₁ r₃ hrec h₁ h₂ h₃
    subst hrec
    unfold regenerateRoadmaps
    simp [h₁, h₂, h₃, List.filterMap_cons]

/-- C4 witness: the amended theorem applied at the scenario input — three
careers where exactly the second request errors. -/
theorem regenerateRoadmaps_spec_witness :
    regenerateRoadmaps ["c1", "c2", "c3"]
        (fun c => if c = "c2" then none else some (c ++ "R")) 42 =
      ⟨["c1", "c2", "c3"], ["c1R", "c3R"], some (["c1R", "c3R"], 42), false⟩ :=
  (regenerateRoadmaps_spec ["c1", "c2", "c3"]
      (fun c => if c = "c2" then none else some (c ++ "R")) 42).2.2.2
    "c1" "c2" "c3" "c1R" "c3R" rfl (by decide) (by decide) (by decide)

/-- C8 counterexample: a successful submit response whose adaptive-question
list is the **empty array** does not skip to completion — the JS truthiness
check treats `[]` as present, so the controller enters the adaptive phase
with zero questions. -/
theorem handleInitialComplete_empty_list_counterexample :
    handleInitialComplete [] ⟨some ⟨some [], []⟩, none⟩ =
      .enterAdaptive [] [] ∧
    handleInitialComplete [] ⟨some ⟨some [], []⟩, none⟩ ≠
      .proceedToComplete := by
  exact ⟨rfl, by decide⟩

/-- C8, amended: on "next" from the last initial question the controller
submits exactly the truthily-answered initial answers, and then: with a
truthy error it shows the error; with an adaptive-question **field** present
(any array, empty included) it enters the adaptive phase with those
questions and the merged session data; it skips directly to completion
exactly when the response carries no truthy error and no adaptive-question
field (absent data or absent/null field). -/
theorem handleInitialComplete_spec (initialAnswers : Obj)
    (resp : ApiResponse SubmitInitialData)
    (initialQuestions : List SurveyQuestion)
    (answers : String → Option String) :
    (∀ q ∈ initialQuestions, truthyOpt (answers q.id) = true →
      objGet (prepareInitialAnswers initialQuestions answers) q.id =
        answers q.id) ∧
    (handleInitialComplete initialAnswers resp = .proceedToComplete ↔
      truthyOpt resp.error = false ∧
        (resp.data = none ∨
          ∃ d, resp.data = some d ∧ d.adaptive_questions = none)) ∧
    (∀ d qs, truthyOpt resp.error = false → resp.data = some d →
      d.adaptive_questions = some qs →
      handleInitialComplete initialAnswers resp =
        .enterAdaptive qs (objMerge initialAnswers d.session_data)) := by
  refine ⟨?_, ?_, ?_⟩
  · -- the prepared payload records every truthily answered initial question
    intro q hq ha
    exact foldl_addAdaptive_mem_get answers initialQuestions [] q hq ha
  · obtain ⟨d, e⟩ := resp
    cases he : truthyOpt e with
    | false =>
      cases d with
      | none => simp [handleInitialComplete, he]
      | some dd =>
        obtain ⟨aq, sd⟩ := dd
        cases aq with
        | none => simp [handleInitialComplete, he]
        | some qs => simp [handleInitialComplete, he]
    | true => simp [handleInitialComplete, he]
  · intro d qs he hd hq
    simp [handleInitialComplete, he, hd, hq]

/-- C8 witness: the amended theorem applied at a concrete successful
response with two adaptive questions, and a single answered initial
question. -/
theorem handleInitialComplete_spec_witness :
    objGet (prepareInitialAnswers [⟨"a", true⟩] witnessAnswers) "a" =
      witnessAnswers "a" ∧
    handleInitialComplete [("a", "2")]
        ⟨some ⟨some [⟨"x", true⟩, ⟨"y", false⟩], [("s", "1")]⟩, none⟩ =
      .enterAdaptive [⟨"x", true⟩, ⟨"y", false⟩]
        (objMerge [("a", "2")] [("s", "1")]) :=
  ⟨(handleInitialComplete_spec [] ⟨none, none⟩ [⟨"a", true⟩]
      witnessAnswers).1 ⟨"a", true⟩ (by decide) (by decide),
    (handleInitialComplete_spec [("a", "2")]
        ⟨some ⟨some [⟨"x", true⟩, ⟨"y", false⟩], [("s", "1")]⟩, none⟩
        [] witnessAnswers).2.2
      ⟨some [⟨"x", true⟩, ⟨"y", false⟩], [("s", "1")]⟩
      [⟨"x", true⟩, ⟨"y", false⟩] (by decide) rfl rfl⟩

/-- C9: every stale or invalid mentor-matching payload — unparseable,
missing/non-array/empty career list, an erroring personalized request, or a
personalized response with no mentors — makes the view fall back to the
regular (unfiltered) mentor fetch with the payload deleted from storage;
when the regular fetch succeeds its list is shown unpersonalized; a valid
payload whose personalized request succeeds with a non-empty list is shown
personalized and is likewise deleted after use. -/
theorem fetchMentors_spec (payload : StoredMatchingPayload)
    (persResp : ApiResponse PersonalizedMentorsData)
    (regResp : ApiResponse RegularMentorsData) :
    (payload = .malformed →
      fetchMentors payload persResp regResp = loadRegularMentors regResp true) ∧
    (∀ sd, payload = .parsed none sd →
      fetchMentors payload persResp regResp = loadRegularMentors regResp true) ∧
    (∀ sd, payload = .parsed (some []) sd →
      fetchMentors payload persResp regResp = loadRegularMentors regResp true) ∧
    (∀ c cs sd, payload = .parsed (some (c :: cs)) sd →
      truthyOpt persResp.error = true →
      fetchMentors payload persResp regResp = loadRegularMentors regResp true) ∧
    (∀ c cs sd, payload = .parsed (some (c :: cs)) sd →
      truthyOpt persResp.error = false →
      (persResp.data.bind (·.mentors)).getD [] = [] →
      fetchMentors payload persResp regResp = loadRegularMentors regResp true) ∧
    (∀ ms, truthyOpt regResp.error = false →
      (regResp.data = some (.directArray ms) ∨
        regResp.data = some (.wrapped ms)) →
      ∀ cleared, loadRegularMentors regResp cleared =
        ⟨ms, false, none, cleared⟩) ∧
    (∀ c cs sd m ms, payload = .parsed (some (c :: cs)) sd →
      truthyOpt persResp.error = false →
      (persResp.data.bind (·.mentors)).getD [] = m :: ms →
      fetchMentors payload persResp regResp = ⟨m :: ms, true, none, true⟩) := by
  refine ⟨?_, ?_, ?_, ?_, ?_, ?_, ?_⟩
  · rintro rfl; rfl
  · rintro sd rfl; rfl
  · rintro sd rfl; rfl
  · rintro c cs sd rfl he
    simp [fetchMentors, he]
  · rintro c cs sd rfl he hm
    simp [fetchMentors, he, hm]
  · rintro ms he (hd | hd) cleared <;> simp [loadRegularMentors, he, hd]
  · rintro c cs sd m ms rfl he hm
    simp [fetchMentors, he, hm]

/-- C9 witness: the theorem applied at a payload whose personalized request
errored; the view shows the two regular mentors and clears the payload. -/
theorem fetchMentors_spec_witness :
    fetchMentors (.parsed (some ["Data Scientist"]) none)
        ⟨none, some "HTTP error! status: 500"⟩
        ⟨some (.directArray [⟨"1", "A", "T", "C", ["ml"]⟩,
          ⟨"2", "B", "T", "C", ["ux"]⟩]), none⟩ =
      loadRegularMentors
        ⟨some (.directArray [⟨"1", "A", "T", "C", ["ml"]⟩,
          ⟨"2", "B", "T", "C", ["ux"]⟩]), none⟩ true ∧
    loadRegularMentors
        ⟨some (.directArray [⟨"1", "A", "T", "C", ["ml"]⟩,
          ⟨"2", "B", "T", "C", ["ux"]⟩]), none⟩ true =
      ⟨[⟨"1", "A", "T", "C", ["ml"]⟩, ⟨"2", "B", "T", "C", ["ux"]⟩],
        false, none, true⟩ :=
  ⟨(fetchMentors_spec (.parsed (some ["Data Scientist"]) none)
      ⟨none, some "HTTP error! status: 500"⟩
      ⟨some (.directArray [⟨"1", "A", "T", "C", ["ml"]⟩,
        ⟨"2", "B", "T", "C", ["ux"]⟩]), none⟩).2.2.2.1
    "Data Scientist" [] none rfl (by decide),
   (fetchMentors_spec (.parsed (some ["Data Scientist"]) none)
      ⟨none, some "HTTP error! status: 500"⟩
      ⟨some (.directArray [⟨"1", "A", "T", "C", ["ml"]⟩,
        ⟨"2", "B", "T", "C", ["ux"]⟩]), none⟩).2.2.2.2.2.1
    [⟨"1", "A", "T", "C", ["ml"]⟩, ⟨"2", "B", "T", "C", ["ux"]⟩]
    (by decide) (Or.inl rfl) true⟩

/-- C10: the filtered mentor list is exactly the order-preserving sublist of
mentors satisfying both active filters — one `filter` pass with the
conjunction of the (vacuously true when inactive) search predicate and the
exact-membership expertise predicate; with a blank search term and selection
`"all"` it is the full list. -/
theorem filterMentors_spec (mentors : List Mentor)
    (searchTerm selectedExpertise : String) :
    filterMentors mentors searchTerm selectedExpertise =
      mentors.filter (fun m =>
        (jsTrim searchTerm == "" ||
          mentorMatchesSearch (jsToLower searchTerm) m) &&
        (selectedExpertise == "all" ||
          m.expertise.contains selectedExpertise)) ∧
    List.Sublist (filterMentors mentors searchTerm selectedExpertise)
      mentors ∧
    (jsTrim searchTerm = "" → selectedExpertise = "all" →
      filterMentors mentors searchTerm selectedExpertise = mentors) := by
  have heq : filterMentors mentors searchTerm selectedExpertise =
      mentors.filter (fun m =>
        (jsTrim searchTerm == "" ||
          mentorMatchesSearch (jsToLower searchTerm) m) &&
        (selectedExpertise == "all" ||
          m.expertise.contains selectedExpertise)) := by
    unfold filterMentors
    by_cases hs : jsTrim searchTerm = ""
    · have hsb : (jsTrim searchTerm == "") = true := beq_iff_eq.mpr hs
      by_cases he : selectedExpertise = "all"
      · have heb : (selectedExpertise == "all") = true := beq_iff_eq.mpr he
        rw [if_neg (by simp [he]), if_neg (by simp [hs])]
        symm
        rw [List.filter_eq_self]
        intro m _
        simp [hsb, heb]
      · have heb : (selectedExpertise == "all") = false :=
          beq_eq_false_iff_ne.mpr he
        rw [if_pos he, if_neg (by simp [hs])]
        apply List.filter_congr
        intro m _
        simp [hsb, heb]
    · have hsb : (jsTrim searchTerm == "") = false :=
        beq_eq_false_iff_ne.mpr hs
      by_cases he : selectedExpertise = "all"
      · have heb : (selectedExpertise == "all") = true := beq_iff_eq.mpr he
        rw [if_neg (by simp [he]), if_pos hs]
        apply List.filter_congr
        intro m _
        simp [hsb, heb]
      · have heb : (selectedExpertise == "all") = false :=
          beq_eq_false_iff_ne.mpr he
        rw [if_pos he, if_pos hs, List.filter_filter]
        apply List.filter_congr
        intro m _
        simp [hsb, heb, Bool.and_comm]
  refine ⟨heq, ?_, ?_⟩
  · rw [heq]
    exact List.filter_sublist _
  · intro hs he
    rw [heq]
    rw [List.filter_eq_self]
    intro m _
    simp [hs, he]

/-- C10 witness: the theorem applied at a concrete two-mentor list with an
active search and an active expertise selection, and at the blank/"all"
configuration. -/
theorem filterMentors_spec_witness :
    filterMentors [⟨"1", "Ada", "Eng", "Acme", ["ml", "ai"]⟩,
        ⟨"2", "Bob", "PM", "Objx", ["ux"]⟩] "AD" "ml" =
      [⟨"1", "Ada", "Eng", "Acme", ["ml", "ai"]⟩] ∧
    filterMentors [⟨"1", "Ada", "Eng", "Acme", ["ml", "ai"]⟩,
        ⟨"2", "Bob", "PM", "Objx", ["ux"]⟩] " " "all" =
      [⟨"1", "Ada", "Eng", "Acme", ["ml", "ai"]⟩,
        ⟨"2", "Bob", "PM", "Objx", ["ux"]⟩] := by
  constructor
  · rw [(filterMentors_spec [⟨"1", "Ada", "Eng", "Acme", ["ml", "ai"]⟩,
        ⟨"2", "Bob", "PM", "Objx", ["ux"]⟩] "AD" "ml").1]
    decide
  · exact (filterMentors_spec [⟨"1", "Ada", "Eng", "Acme", ["ml", "ai"]⟩,
        ⟨"2", "Bob", "PM", "Objx", ["ux"]⟩] " " "all").2.2 (by decide) rfl

theorem hasBlankPat_nil : hasBlankPat [] = false := rfl

theorem hasBlankPat_cons (c : Char) (rest : List Char) :
    hasBlankPat (c :: rest) =
      (((c == '\n') && (rest.takeWhile Char.isWhitespace).contains '\n') ||
        hasBlankPat rest) := rfl

theorem collapseNlAux_nil (buf : List Char) :
    collapseNlAux buf [] = collapseRun buf.reverse := rfl

theorem collapseNlAux_cons (buf : List Char) (c : Char) (rest : List Char) :
    collapseNlAux buf (c :: rest) =
      if c.isWhitespace then collapseNlAux (c :: buf) rest
      else collapseRun buf.reverse ++ c :: collapseNlAux [] rest := rfl

theorem mem_of_mem_takeWhile {p : Char → Bool} {c : Char} :
    ∀ {l : List Char}, c ∈ l.takeWhile p → c ∈ l := by
  intro l
  induction l with
  | nil => intro h; cases h
  | cons x xs ih =>
    intro h
    by_cases hx : p x
    · rw [List.takeWhile_cons_of_pos hx] at h
      rcases List.mem_cons.mp h with h | h
      · exact h ▸ List.mem_cons_self x xs
      · exact List.mem_cons_of_mem x (ih h)
    · rw [List.takeWhile_cons_of_neg hx] at h
      cases h

theorem pred_of_mem_takeWhile {p : Char → Bool} {c : Char} :
    ∀ {l : List Char}, c ∈ l.takeWhile p → p c = true := by
  intro l
  induction l with
  | nil => intro h; cases h
  | cons x xs ih =>
    intro h
    by_cases hx : p x
    · rw [List.takeWhile_cons_of_pos hx] at h
      rcases List.mem_cons.mp h with h | h
      · exact h ▸ hx
      · exact ih h
    · rw [List.takeWhile_cons_of_neg hx] at h
      cases h

theorem takeWhile_all {p : Char → Bool} :
    ∀ {l : List Char}, (∀ x ∈ l, p x = true) → l.takeWhile p = l := by
  intro l
  induction l with
  | nil => intro _; rfl
  | cons x xs ih =>
    intro h
    rw [List.takeWhile_cons_of_pos (h x (List.mem_cons_self x xs))]
    rw [ih (fun y hy => h y (List.mem_cons_of_mem x hy))]

theorem takeWhile_append_all {p : Char → Bool} {ys : List Char} :
    ∀ {xs : List Char}, (∀ x ∈ xs, p x = true) →
      (xs ++ ys).takeWhile p = xs ++ ys.takeWhile p := by
  intro xs
  induction xs with
  | nil => intro _; rfl
  | cons x xs' ih =>
    intro h
    rw [List.cons_append,
      List.takeWhile_cons_of_pos (h x (List.mem_cons_self x xs')),
      ih (fun y hy => h y (List.mem_cons_of_mem x hy)), List.cons_append]

theorem mem_takeWhile_append {p : Char → Bool} {c : Char} {ys : List Char} :
    ∀ {xs : List Char}, c ∈ xs.takeWhile p → c ∈ (xs ++ ys).takeWhile p := by
  intro xs
  induction xs with
  | nil => intro h; cases h
  | cons x xs' ih =>
    intro h
    by_cases hx : p x
    · rw [List.takeWhile_cons_of_pos hx] at h
      rw [List.cons_append, List.takeWhile_cons_of_pos hx]
      rcases List.mem_cons.mp h with h | h
      · exact h ▸ List.mem_cons_self _ _
      · exact List.mem_cons_of_mem _ (ih h)
    · rw [List.takeWhile_cons_of_neg hx] at h
      cases h

theorem count_nl_collapseRun (r : List Char) :
    (collapseRun r).count '\n' ≤ 1 := by
  unfold collapseRun
  split
  · have h₁ : (r.takeWhile (fun c => c ≠ '\n')).count '\n' = 0 := by
      rw [List.count_eq_zero]
      intro hmem
      have := pred_of_mem_takeWhile hmem
      simp at this
    have h₂ :
        ((r.reverse.takeWhile (fun c => c ≠ '\n')).reverse).count '\n' = 0 := by
      rw [List.count_eq_zero]
      intro hmem
      rw [List.mem_reverse] at hmem
      have := pred_of_mem_takeWhile hmem
      simp at this
    rw [List.count_append, h₁, List.count_cons, h₂]
    simp
  · next h => omega

theorem collapseRun_eq_self {r : List Char} (h : r.count '\n' ≤ 1) :
    collapseRun r = r := by
  unfold collapseRun
  rw [if_neg]
  omega

theorem ws_of_mem_collapseRun {r : List Char}
    (hr : ∀ c ∈ r, c.isWhitespace = true) :
    ∀ c ∈ collapseRun r, c.isWhitespace = true := by
  intro c hc
  unfold collapseRun at hc
  split at hc
  · rcases List.mem_append.mp hc with h | h
    · exact hr c (mem_of_mem_takeWhile h)
    · rcases List.mem_cons.mp h with h | h
      · subst h; decide
      · rw [List.mem_reverse] at h
        have := mem_of_mem_takeWhile h
        rw [List.mem_reverse] at this
        exact hr c this
  · exact hr c hc

theorem hasBlankPat_of_count {l : List Char} (h : l.count '\n' ≤ 1) :
    hasBlankPat l = false := by
  induction l with
  | nil => rfl
  | cons c rest ih =>
    rw [hasBlankPat_cons]
    by_cases hc : c = '\n'
    · subst hc
      have hcount : rest.count '\n' = 0 := by
        rw [List.count_cons] at h
        simp at h
        omega
      have hnot : '\n' ∉ rest := List.count_eq_zero.mp hcount
      have hcontains :
          ((rest.takeWhile Char.isWhitespace).contains '\n') = false := by
        rw [Bool.eq_false_iff]
        intro hcon
        rw [List.contains, List.elem_iff] at hcon
        exact hnot (mem_of_mem_takeWhile hcon)
      rw [hcontains, ih (by omega)]
      simp
    · have hcount : rest.count '\n' ≤ 1 := by
        rw [List.count_cons] at h
        omega
      rw [ih hcount]
      simp [hc]

theorem count_le_one_of_ws_not_pat {r : List Char}
    (hws : ∀ c ∈ r, c.isWhitespace = true) (h : hasBlankPat r = false) :
    r.count '\n' ≤ 1 := by
  induction r with
  | nil => simp
  | cons c rest ih =>
    rw [hasBlankPat_cons, Bool.or_eq_false_iff] at h
    obtain ⟨h₁, h₂⟩ := h
    have hrest := ih (fun x hx => hws x (List.mem_cons_of_mem c hx)) h₂
    by_cases hc : c = '\n'
    · subst hc
      have htk : rest.takeWhile Char.isWhitespace = rest :=
        takeWhile_all (fun x hx => hws x (List.mem_cons_of_mem _ hx))
      rw [htk] at h₁
      simp only [beq_self_eq_true, Bool.true_and] at h₁
      have : '\n' ∉ rest := by
        intro hmem
        rw [Bool.eq_false_iff] at h₁
        exact h₁ (by rw [List.contains, List.elem_iff]; exact hmem)
      rw [List.count_cons]
      have : rest.count '\n' = 0 := List.count_eq_zero.mpr this
      simp [this]
    · rw [List.count_cons]
      simp [hc, hrest]

theorem hasBlankPat_append_left {xs ys : List Char}
    (h : hasBlankPat xs = true) : hasBlankPat (xs ++ ys) = true := by
  induction xs with
  | nil => cases h
  | cons c rest ih =>
    rw [hasBlankPat_cons, Bool.or_eq_true] at h
    rw [List.cons_append, hasBlankPat_cons, Bool.or_eq_true]
    rcases h with h | h
    · rw [Bool.and_eq_true] at h
      obtain ⟨hc, hcon⟩ := h
      left
      rw [Bool.and_eq_true]
      refine ⟨hc, ?_⟩
      rw [List.contains, List.elem_iff] at hcon ⊢
      exact mem_takeWhile_append hcon
    · right
      exact ih h

theorem hasBlankPat_append_right {xs ys : List Char}
    (h : hasBlankPat ys = true) : hasBlankPat (xs ++ ys) = true := by
  induction xs with
  | nil => exact h
  | cons c rest ih =>
    rw [List.cons_append, hasBlankPat_cons, ih]
    simp

theorem hasBlankPat_run_append {c : Char} {t : List Char}
    (hc : c.isWhitespace = false) :
    ∀ {pr : List Char}, (∀ x ∈ pr, x.isWhitespace = true) →
      pr.count '\n' ≤ 1 → hasBlankPat (pr ++ c :: t) = hasBlankPat t := by
  intro pr
  induction pr with
  | nil =>
    intro _ _
    rw [List.nil_append, hasBlankPat_cons]
    have hne : (c == '\n') = false := by
      rw [beq_eq_false_iff_ne]
      intro h
      subst h
      simp at hc
    rw [hne]
    simp
  | cons d pr' ih =>
    intro hws hcount
    have hws' : ∀ x ∈ pr', x.isWhitespace = true :=
      fun x hx => hws x (List.mem_cons_of_mem d hx)
    have htk : (pr' ++ c :: t).takeWhile Char.isWhitespace = pr' := by
      rw [takeWhile_append_all hws']
      rw [List.takeWhile_cons_of_neg (by rw [hc]; exact Bool.false_ne_true)]
      simp
    rw [List.cons_append, hasBlankPat_cons, htk]
    by_cases hd : d = '\n'
    · subst hd
      have hc0 : pr'.count '\n' = 0 := by
        rw [List.count_cons] at hcount
        simp at hcount
        omega
      have hpr : (pr'.contains '\n') = false := by
        rw [Bool.eq_false_iff]
        intro hcon
        rw [List.contains, List.elem_iff] at hcon
        exact absurd hcon (List.count_eq_zero.mp hc0)
      rw [hpr]
      simp only [Bool.and_false, Bool.false_or]
      exact ih hws' (by omega)
    · have hdb : (d == '\n') = false := beq_eq_false_iff_ne.mpr hd
      rw [hdb]
      simp only [Bool.false_and, Bool.false_or]
      apply ih hws'
      rw [List.count_cons] at hcount
      simp [hd] at hcount
      omega

theorem hasBlankPat_collapseNlAux :
    ∀ (l buf : List Char), (∀ c ∈ buf, c.isWhitespace = true) →
      hasBlankPat (collapseNlAux buf l) = false := by
  intro l
  induction l with
  | nil =>
    intro buf hbuf
    rw [collapseNlAux_nil]
    exact hasBlankPat_of_count (count_nl_collapseRun _)
  | cons c rest ih =>
    intro buf hbuf
    rw [collapseNlAux_cons]
    by_cases hc : c.isWhitespace = true
    · rw [if_pos hc]
      apply ih
      intro x hx
      rcases List.mem_cons.mp hx with h | h
      · exact h ▸ hc
      · exact hbuf x h
    · rw [if_neg hc]
      have hbufr : ∀ x ∈ buf.reverse, x.isWhitespace = true := by
        intro x hx
        exact hbuf x (List.mem_reverse.mp hx)
      rw [hasBlankPat_run_append (Bool.eq_false_iff.mpr hc)
        (ws_of_mem_collapseRun hbufr) (count_nl_collapseRun _)]
      exact ih [] (by intro x hx; cases hx)

theorem hasBlankPat_collapseNl (l : List Char) :
    hasBlankPat (collapseNl l) = false :=
  hasBlankPat_collapseNlAux l [] (by intro x hx; cases hx)

theorem collapseNlAux_eq_of_not_pat :
    ∀ (l buf : List Char), (∀ c ∈ buf, c.isWhitespace = true) →
      hasBlankPat (buf.reverse ++ l) = false →
      collapseNlAux buf l = buf.reverse ++ l := by
  intro l
  induction l with
  | nil =>
    intro buf hbuf hpat
    rw [collapseNlAux_nil]
    rw [List.append_nil] at hpat
    rw [collapseRun_eq_self (count_le_one_of_ws_not_pat
      (fun x hx => hbuf x (List.mem_reverse.mp hx)) hpat)]
    simp
  | cons c rest ih =>
    intro buf hbuf hpat
    rw [collapseNlAux_cons]
    by_cases hc : c.isWhitespace = true
    · rw [if_pos hc]
      have hbuf' : ∀ x ∈ c :: buf, x.isWhitespace = true := by
        intro x hx
        rcases List.mem_cons.mp hx with h | h
        · exact h ▸ hc
        · exact hbuf x h
      have hpat' : hasBlankPat ((c :: buf).reverse ++ rest) = false := by
        rw [List.reverse_cons, List.append_assoc]
        simpa using hpat
      rw [ih (c :: buf) hbuf' hpat', List.reverse_cons, List.append_assoc]
      simp
    · rw [if_neg hc]
      have hbufr : ∀ x ∈ buf.reverse, x.isWhitespace = true :=
        fun x hx => hbuf x (List.mem_reverse.mp hx)
      have hpat₁ : hasBlankPat buf.reverse = false := by
        rw [Bool.eq_false_iff]
        intro h
        rw [Bool.eq_false_iff] at hpat
        exact hpat (hasBlankPat_append_left h)
      have hpat₂ : hasBlankPat rest = false := by
        rw [Bool.eq_false_iff]
        intro h
        rw [Bool.eq_false_iff] at hpat
        apply hpat
        have : hasBlankPat ((buf.reverse ++ [c]) ++ rest) = true :=
          hasBlankPat_append_right h
        rwa [List.append_assoc, List.singleton_append] at this
      rw [collapseRun_eq_self (count_le_one_of_ws_not_pat hbufr hpat₁)]
      rw [ih [] (by intro x hx; cases hx) (by simpa using hpat₂)]
      simp

theorem collapseNl_eq_of_not_pat {l : List Char}
    (h : hasBlankPat l = false) : collapseNl l = l := by
  unfold collapseNl
  rw [collapseNlAux_eq_of_not_pat l [] (by intro x hx; cases hx)
    (by simpa using h)]
  simp

theorem hasBlankPat_trimChars {l : List Char}
    (h : hasBlankPat (trimChars l) = true) : hasBlankPat l = true := by
  have hdec : l = l.takeWhile Char.isWhitespace ++
      (trimChars l ++
        ((l.dropWhile Char.isWhitespace).reverse.takeWhile
          Char.isWhitespace).reverse) := by
    conv_lhs => rw [← List.takeWhile_append_dropWhile
      (p := Char.isWhitespace) (l := l)]
    congr 1
    conv_lhs => rw [← List.reverse_reverse (l.dropWhile Char.isWhitespace)]
    conv_lhs => rw [← List.takeWhile_append_dropWhile
      (p := Char.isWhitespace) (l := (l.dropWhile Char.isWhitespace).reverse)]
    rw [List.reverse_append]
    rfl
  rw [hdec]
  exact hasBlankPat_append_right (hasBlankPat_append_left h)

theorem dropWhile_idem {p : Char → Bool} :
    ∀ {l : List Char}, (l.dropWhile p).dropWhile p = l.dropWhile p := by
  intro l
  induction l with
  | nil => rfl
  | cons c rest ih =>
    by_cases hc : p c
    · rw [List.dropWhile_cons_of_pos hc]
      exact ih
    · rw [List.dropWhile_cons_of_neg hc, List.dropWhile_cons_of_neg hc]

theorem dropWhile_head_false {p : Char → Bool} {c : Char} {cs : List Char} :
    ∀ {l : List Char}, l.dropWhile p = c :: cs → p c = false := by
  intro l
  induction l with
  | nil => intro h; cases h
  | cons x xs ih =>
    intro h
    by_cases hx : p x
    · rw [List.dropWhile_cons_of_pos hx] at h
      exact ih h
    · rw [List.dropWhile_cons_of_neg hx] at h
      injection h with h₁ _
      subst h₁
      exact Bool.eq_false_iff.mpr hx

theorem dropWhile_append_singleton {p : Char → Bool} {c : Char}
    (hc : p c = false) :
    ∀ (xs : List Char), (xs ++ [c]).dropWhile p = xs.dropWhile p ++ [c] := by
  have hc' : ¬ p c = true := by simp [hc]
  intro xs
  induction xs with
  | nil =>
    rw [List.nil_append, List.dropWhile_cons_of_neg hc']
    rfl
  | cons x xs' ih =>
    by_cases hx : p x
    · rw [List.cons_append, List.dropWhile_cons_of_pos hx,
        List.dropWhile_cons_of_pos hx]
      exact ih
    · rw [List.cons_append, List.dropWhile_cons_of_neg hx,
        List.dropWhile_cons_of_neg hx, List.cons_append]

theorem trimChars_idem (l : List Char) :
    trimChars (trimChars l) = trimChars l := by
  have expand : ∀ x : List Char, trimChars x =
      ((x.dropWhile Char.isWhitespace).reverse.dropWhile
        Char.isWhitespace).reverse := fun _ => rfl
  cases hd1 : l.dropWhile Char.isWhitespace with
  | nil =>
    have h0 : trimChars l = [] := by
      rw [expand l, hd1]
      rfl
    rw [h0]
    rfl
  | cons c cs =>
    have hc : c.isWhitespace = false := dropWhile_head_false hd1
    have hc' : ¬ c.isWhitespace = true := by simp [hc]
    have htl : trimChars l =
        c :: (cs.reverse.dropWhile Char.isWhitespace).reverse := by
      rw [expand l, hd1, List.reverse_cons, dropWhile_append_singleton hc,
        List.reverse_append]
      rfl
    rw [expand (trimChars l), htl, List.dropWhile_cons_of_neg hc',
      List.reverse_cons, List.reverse_reverse,
      dropWhile_append_singleton hc, dropWhile_idem, List.reverse_append]
    rfl

theorem removeDoubleStar_sublist :
    ∀ (l : List Char), List.Sublist (removeDoubleStar l) l := by
  intro l
  induction l using removeDoubleStar.induct with
  | case1 => simp [removeDoubleStar]
  | case2 c => simp [removeDoubleStar]
  | case3 c d rest h ih =>
    rw [removeDoubleStar, if_pos h]
    exact ih.trans ((List.sublist_cons_self d rest).trans
      (List.sublist_cons_self c (d :: rest)))
  | case4 c d rest h ih =>
    rw [removeDoubleStar, if_neg h]
    exact ih.cons₂ c

theorem removeDoubleStar_eq_self :
    ∀ {l : List Char}, '*' ∉ l → removeDoubleStar l = l := by
  intro l
  induction l using removeDoubleStar.induct with
  | case1 => intro _; rfl
  | case2 c => intro _; rfl
  | case3 c d rest h ih =>
    intro hmem
    exact absurd (h.1 ▸ List.mem_cons_self c (d :: rest)) hmem
  | case4 c d rest h ih =>
    intro hmem
    rw [removeDoubleStar, if_neg h,
      ih (fun hm => hmem (List.mem_cons_of_mem c hm))]

theorem mem_collapseRun {c : Char} {r : List Char}
    (h : c ∈ collapseRun r) : c ∈ r ∨ c = '\n' := by
  unfold collapseRun at h
  split at h
  · rcases List.mem_append.mp h with h | h
    · exact Or.inl (mem_of_mem_takeWhile h)
    · rcases List.mem_cons.mp h with h | h
      · exact Or.inr h
      · rw [List.mem_reverse] at h
        have := mem_of_mem_takeWhile h
        rw [List.mem_reverse] at this
        exact Or.inl this
  · exact Or.inl h

theorem mem_collapseNlAux {c : Char} :
    ∀ (l buf : List Char), c ∈ collapseNlAux buf l →
      c ∈ buf ∨ c ∈ l ∨ c = '\n' := by
  intro l
  induction l with
  | nil =>
    intro buf h
    rw [collapseNlAux_nil] at h
    rcases mem_collapseRun h with h | h
    · exact Or.inl (List.mem_reverse.mp h)
    · exact Or.inr (Or.inr h)
  | cons d rest ih =>
    intro buf h
    rw [collapseNlAux_cons] at h
    split at h
    · rcases ih (d :: buf) h with h | h | h
      · rcases List.mem_cons.mp h with h | h
        · exact Or.inr (Or.inl (h ▸ List.mem_cons_self d rest))
        · exact Or.inl h
      · exact Or.inr (Or.inl (List.mem_cons_of_mem d h))
      · exact Or.inr (Or.inr h)
    · rcases List.mem_append.mp h with h | h
      · rcases mem_collapseRun h with h | h
        · exact Or.inl (List.mem_reverse.mp h)
        · exact Or.inr (Or.inr h)
      · rcases List.mem_cons.mp h with h | h
        · exact Or.inr (Or.inl (h ▸ List.mem_cons_self d rest))
        · rcases ih [] h with h | h | h
          · cases h
          · exact Or.inr (Or.inl (List.mem_cons_of_mem d h))
          · exact Or.inr (Or.inr h)

theorem mem_trimChars {c : Char} {l : List Char} (h : c ∈ trimChars l) :
    c ∈ l := by
  unfold trimChars at h
  rw [List.mem_reverse] at h
  have h₁ := (List.dropWhile_sublist _).mem h
  rw [List.mem_reverse] at h₁
  exact (List.dropWhile_sublist _).mem h₁

theorem stripMarkdownChars_not_banned {c : Char} {l : List Char}
    (h : c ∈ stripMarkdownChars l) :
    c ≠ '*' ∧ c ≠ '_' ∧ c ≠ '\x60' ∧ c ≠ '~' ∧ c ≠ '#' := by
  unfold stripMarkdownChars at h
  simp only [List.mem_filter, decide_eq_true_eq] at h
  tauto

theorem mem_stripMarkdownChars {c : Char} {l : List Char}
    (h : c ∈ stripMarkdownChars l) : c ∈ l := by
  unfold stripMarkdownChars at h
  simp only [List.mem_filter] at h
  exact (removeDoubleStar_sublist l).mem h.1.1.1.1.1

theorem stripMarkdownChars_eq_self {l : List Char}
    (h : ∀ c ∈ l, c ≠ '*' ∧ c ≠ '_' ∧ c ≠ '\x60' ∧ c ≠ '~' ∧ c ≠ '#') :
    stripMarkdownChars l = l := by
  unfold stripMarkdownChars
  rw [removeDoubleStar_eq_self (fun hm => (h '*' hm).1 rfl)]
  rw [List.filter_eq_self.mpr (fun a ha => decide_eq_true (h a ha).1)]
  rw [List.filter_eq_self.mpr (fun a ha => decide_eq_true (h a ha).2.1)]
  rw [List.filter_eq_self.mpr (fun a ha => decide_eq_true (h a ha).2.2.1)]
  rw [List.filter_eq_self.mpr (fun a ha => decide_eq_true (h a ha).2.2.2.1)]
  rw [List.filter_eq_self.mpr (fun a ha => decide_eq_true (h a ha).2.2.2.2)]

theorem mem_cleanMarkdownText {c : Char} {s : String}
    (h : c ∈ (cleanMarkdownText s).data) : c ∈ s.data ∨ c = '\n' := by
  have h₁ : c ∈ trimChars (collapseNl (stripMarkdownChars s.data)) := h
  have h₂ : c ∈ collapseNlAux [] (stripMarkdownChars s.data) :=
    mem_trimChars h₁
  rcases mem_collapseNlAux _ [] h₂ with h | h | h
  · cases h
  · exact Or.inl (mem_stripMarkdownChars h)
  · exact Or.inr h

theorem cleanMarkdownText_not_banned {c : Char} {s : String}
    (h : c ∈ (cleanMarkdownText s).data) :
    c ≠ '*' ∧ c ≠ '_' ∧ c ≠ '\x60' ∧ c ≠ '~' ∧ c ≠ '#' := by
  have h₁ : c ∈ trimChars (collapseNl (stripMarkdownChars s.data)) := h
  have h₂ : c ∈ collapseNlAux [] (stripMarkdownChars s.data) :=
    mem_trimChars h₁
  rcases mem_collapseNlAux _ [] h₂ with h | h | h
  · cases h
  · exact stripMarkdownChars_not_banned h
  · subst h
    refine ⟨by decide, by decide, by decide, by decide, by decide⟩

theorem cleanMarkdownText_idem (s : String) :
    cleanMarkdownText (cleanMarkdownText s) = cleanMarkdownText s := by
  have hdata : (cleanMarkdownText s).data =
      trimChars (collapseNl (stripMarkdownChars s.data)) := rfl
  have hstrip : stripMarkdownChars (cleanMarkdownText s).data =
      (cleanMarkdownText s).data :=
    stripMarkdownChars_eq_self (fun c hc => cleanMarkdownText_not_banned hc)
  have hpat : hasBlankPat (cleanMarkdownText s).data = false := by
    rw [hdata, Bool.eq_false_iff]
    intro h
    have h₁ := hasBlankPat_trimChars h
    rw [hasBlankPat_collapseNl] at h₁
    cases h₁
  have hcollapse : collapseNl (cleanMarkdownText s).data =
      (cleanMarkdownText s).data := collapseNl_eq_of_not_pat hpat
  have htrim : trimChars (cleanMarkdownText s).data =
      (cleanMarkdownText s).data := by
    rw [hdata]
    exact trimChars_idem _
  show String.mk (trimChars (collapseNl (stripMarkdownChars
    (cleanMarkdownText s).data))) = cleanMarkdownText s
  rw [hstrip, hcollapse, htrim]

theorem listContainsSub_singleton (a : Char) :
    ∀ l : List Char, listContainsSub [a] l = l.contains a := by
  intro l
  induction l with
  | nil => rfl
  | cons c rest ih =>
    show ([a].isPrefixOf (c :: rest) || listContainsSub [a] rest) = _
    rw [ih]
    show ((a == c) && List.isPrefixOf [] rest || rest.contains a) = _
    rcases Bool.eq_false_or_eq_true (a == c) with h | h <;>
      simp [List.contains, List.elem, h]

theorem containsSub_brace_eq (s : String) :
    containsSub s "\x7b" = s.data.contains '\x7b' := by
  show listContainsSub (("\x7b").data) s.data = _
  rw [show ("\x7b").data = ['\x7b'] from rfl]
  exact listContainsSub_singleton _ _

/-- C7 counterexample: the roadmap display normalizer is not idempotent.
Stripping the markdown `*` from `"Focus* Areas"` (quotes included) creates
the structural marker `"Focus Areas"`, so the second pass takes the
structured-extraction branch and collapses the text to the empty string. -/
theorem formatRoadmapText_not_idempotent :
    formatRoadmapText "\"Focus* Areas\"" = "\"Focus Areas\"" ∧
    formatRoadmapText "\"Focus Areas\"" = "" ∧
    formatRoadmapText (formatRoadmapText "\"Focus* Areas\"") ≠
      formatRoadmapText "\"Focus* Areas\"" := by
  refine ⟨by decide, by decide, by decide⟩

/-- C7, amended: the normalizer is idempotent on every plain-string input of
the markdown-cleanup fast path (non-empty, no `\x7b`, no `"Focus Areas"`
marker, under 500 characters) whose cleaned output still satisfies those
guards — stripping must not itself produce a structural marker, as it does
in the counterexample. -/
theorem formatRoadmapText_idem_plain (s : String)
    (h0 : s ≠ "")
    (h1 : containsSub s "\x7b" = false)
    (h2 : containsSub s "\"Focus Areas\"" = false)
    (h3 : s.data.length < 500)
    (h4 : cleanMarkdownText s ≠ "")
    (h5 : containsSub (cleanMarkdownText s) "\"Focus Areas\"" = false)
    (h6 : (cleanMarkdownText s).data.length < 500) :
    formatRoadmapText (formatRoadmapText s) = formatRoadmapText s := by
  have hfs : formatRoadmapText s = cleanMarkdownText s := by
    unfold formatRoadmapText
    rw [if_neg h0, if_pos ⟨h1, h2, h3⟩]
  have h1' : containsSub (cleanMarkdownText s) "\x7b" = false := by
    rw [containsSub_brace_eq] at h1 ⊢
    rw [Bool.eq_false_iff] at h1 ⊢
    intro hcon
    apply h1
    rw [List.contains, List.elem_iff] at hcon ⊢
    rcases mem_cleanMarkdownText hcon with h | h
    · exact h
    · exact absurd h (by decide)
  have hff : formatRoadmapText (cleanMarkdownText s) =
      cleanMarkdownText (cleanMarkdownText s) := by
    unfold formatRoadmapText
    rw [if_neg h4, if_pos ⟨h1', h5, h6⟩]
  rw [hfs, hff, cleanMarkdownText_idem]

/-- C7 witness: the amended theorem applied at a concrete markdown string,
with every hypothesis evaluated. -/
theorem formatRoadmapText_idem_plain_witness :
    formatRoadmapText (formatRoadmapText "hello **world**") =
      formatRoadmapText "hello **world**" :=
  formatRoadmapText_idem_plain "hello **world**" (by decide) (by decide)
    (by decide) (by decide) (by decide) (by decide) (by decide)

end SkillSeek
